import Mathlib

/-!
Verification development for the salz JS game engine (`src/index.js`):
a Conway's-Game-of-Life variant on a toroidal square grid with per-cell
player ownership.  The definitions below are a shallow embedding of the
JavaScript source: JS arrays become `List`, in-place mutation becomes
explicit state passing, and the one runtime failure mode (`reduce` of an
empty array inside `most`) is modelled with `Option`.
-/

namespace Salz

/-- A cell of the grid (`class Cell` in `src/index.js`).  The transient
`tmpAliveNeighbours` scratch array is not stored on the cell; it is passed
explicitly through the birth-evaluation step (see `bornScan`). -/
structure Cell where
  owner : Int
  x : Int
  y : Int
deriving DecidableEq, Repr

/-- Model of `Cell.equals`: two cells are equal iff their coordinates match;
owner is ignored (`equals = cell => { if (cell.x === this.x) ... }`). -/
def Cell.equals (this other : Cell) : Bool :=
  other.x == this.x && other.y == this.y

/-- A player move / snapshot record `{x, y, playerid}`. -/
structure Move where
  x : Int
  y : Int
  playerid : Int
deriving DecidableEq, Repr

/-- The playing field (`class Grid`): a size and the list of live cells. -/
structure Grid where
  size : Int
  cells : List Cell
deriving DecidableEq, Repr

/-- Model of `new Grid(size)`: empty live-cell collection. -/
def Grid.ofSize (size : Int) : Grid := { size := size, cells := [] }

/-- Model of `grid.mountSnapshot(snapshot)`: push a cell per record, owner from
`cell.playerid`. -/
def Grid.mountSnapshot (g : Grid) (snapshot : List Move) : Grid :=
  { g with
    cells := g.cells ++ snapshot.map (fun c => { owner := c.playerid, x := c.x, y := c.y }) }

/-- Coordinate wrap used by every neighbour computation in `next`:
`xMod = xShift < 0 ? xShift + size : xShift % size` (JS `%` is the
truncated remainder, i.e. `Int.tmod`). -/
def wrapCoord (size shift : Int) : Int :=
  if shift < 0 then shift + size else shift.tmod size

/-- The loop `for (i of [-1,0,1]) for (j of [-1,0,1]) if (i===0 && j===0) continue`,
as the list of the 8 Moore shifts in iteration order. -/
def neighbourShifts : List (Int × Int) :=
  [-1, 0, 1].flatMap (fun i =>
    [-1, 0, 1].filterMap (fun j => if i = 0 ∧ j = 0 then none else some ((i : Int), (j : Int))))

/-- Model of `isAlive(cell)`: `this.cells.findIndex(c => c.equals(cell)) !== -1`. -/
def isAlive (cells : List Cell) (cell : Cell) : Bool :=
  (cells.findIdx? (fun c => c.equals cell)).isSome

/-- One iteration of the move-application loop of `next`: build a cell at the
move's exact coordinates owned by `move.playerid`; if a live cell with equal
coordinates exists, splice it out, otherwise push the new cell. -/
def flipMove (cells : List Cell) (move : Move) : List Cell :=
  match cells.findIdx?
      (fun cell => cell.equals { owner := move.playerid, x := move.x, y := move.y }) with
  | some i => cells.eraseIdx i
  | none => cells ++ [{ owner := move.playerid, x := move.x, y := move.y }]

/-- Model of the loop `for (const move of turnMoves)`: moves applied sequentially in order. -/
def applyMoves (cells : List Cell) (turnMoves : List Move) : List Cell :=
  turnMoves.foldl flipMove cells

/-- Model of `getNeighboursOf(cell)`: for each shift, push every existing grid cell at
the wrapped coordinate (thereby carrying owner information), or a fresh cell
with owner `-1` if none exists. -/
def getNeighboursOf (size : Int) (cells : List Cell) (cell : Cell) : List Cell :=
  neighbourShifts.flatMap (fun s =>
    if (cells.filter (fun oldCell => oldCell.equals
        { owner := -1, x := wrapCoord size (cell.x + s.1), y := wrapCoord size (cell.y + s.2) })).isEmpty
    then [{ owner := -1, x := wrapCoord size (cell.x + s.1), y := wrapCoord size (cell.y + s.2) }]
    else cells.filter (fun oldCell => oldCell.equals
      { owner := -1, x := wrapCoord size (cell.x + s.1), y := wrapCoord size (cell.y + s.2) }))

/-- Model of `getAliveNeighboursOf(cell)`. -/
def getAliveNeighboursOf (size : Int) (cells : List Cell) (cell : Cell) : List Cell :=
  (getNeighboursOf size cells cell).filter (isAlive cells)

/-- Model of `isHealthy(cell)`: `[2, 3].includes(getAliveNeighboursOf(cell).length)`. -/
def isHealthy (size : Int) (cells : List Cell) (cell : Cell) : Bool :=
  (getAliveNeighboursOf size cells cell).length == 2
    || (getAliveNeighboursOf size cells cell).length == 3

/-- Model of `playersCount[owner] = playersCount[owner] ? playersCount[owner] + 1 : 1`:
increment the tally of an existing key, or append a new key with tally 1.
The association list keeps JS-object key insertion order. -/
def tallyInsert (m : List (Int × Nat)) (o : Int) : List (Int × Nat) :=
  if m.any (fun e => e.1 == o) then
    m.map (fun e => if e.1 == o then (e.1, e.2 + 1) else e)
  else m ++ [(o, 1)]

/-- Body of the `aliveNeighbours.forEach` loop in `most`: owners equal to the
unowned sentinel `-1` are excluded from the tally. -/
def tallyStep (m : List (Int × Nat)) (c : Cell) : List (Int × Nat) :=
  if c.owner = -1 then m else tallyInsert m c.owner

/-- The `playersCount` object built by `most`. -/
def playersCount (aliveNeighbours : List Cell) : List (Int × Nat) :=
  aliveNeighbours.foldl tallyStep []

/-- Lookup of `playersCount[k]` (0 when absent; tallies are never 0). -/
def lookupCount (m : List (Int × Nat)) (k : Int) : Nat :=
  ((m.find? (fun e => e.1 == k)).map Prod.snd).getD 0

/-- Ascending insertion used to model JS property-key enumeration order. -/
def insertAsc (k : Int) : List Int → List Int
  | [] => [k]
  | a :: t => if k ≤ a then k :: a :: t else a :: insertAsc k t

def sortAsc (l : List Int) : List Int := l.foldr insertAsc []

/-- Model of `Object.keys(playersCount)`: JS enumerates array-index-like keys
(canonical integers in `[0, 2^32)`) in ascending numeric order first, then
the remaining keys in insertion order. -/
def objectKeysOrder (m : List (Int × Nat)) : List Int :=
  let ks := m.map Prod.fst
  sortAsc (ks.filter (fun k => decide (0 ≤ k) && decide (k < 4294967296)))
    ++ ks.filter (fun k => !(decide (0 ≤ k) && decide (k < 4294967296)))

/-- Model of `most(aliveNeighbours)`: tally owners (excluding `-1`), reverse the key
list, and `reduce((a, b) => playersCount[a] > playersCount[b] ? a : b)`.
`reduce` of an empty array with no initial value throws a `TypeError`, which
is modelled by `none`.  The final `parseInt(key, 10)` is the identity on the
integer owners modelled here. -/
def most (aliveNeighbours : List Cell) : Option Int :=
  match (objectKeysOrder (playersCount aliveNeighbours)).reverse with
  | [] => none
  | a :: rest =>
      some (rest.foldl (fun a b =>
        if lookupCount (playersCount aliveNeighbours) a
            > lookupCount (playersCount aliveNeighbours) b then a else b) a)

/-- One step of the counting loop in `shouldBeBorn`: probe the wrapped
neighbour coordinate; on a hit, increment the counter and record the first
matching grid cell (`this.cells[neighbourCellIndex]`, the push into
`tmpAliveNeighbours`). -/
def bornStep (size : Int) (cells : List Cell) (neighbour : Cell)
    (st : Nat × List Cell) (s : Int × Int) : Nat × List Cell :=
  match cells.find? (fun cell => cell.equals
      { owner := -1, x := wrapCoord size (neighbour.x + s.1),
        y := wrapCoord size (neighbour.y + s.2) }) with
  | some gridCell => (st.1 + 1, st.2 ++ [gridCell])
  | none => st

/-- The full counting loop of `shouldBeBorn`: returns the live-neighbour
counter together with the recorded `tmpAliveNeighbours` list. -/
def bornScan (size : Int) (cells : List Cell) (neighbour : Cell) : Nat × List Cell :=
  neighbourShifts.foldl (bornStep size cells neighbour) (0, [])

/-- Model of `shouldBeBorn(neighbour)`: `counter === 3`. -/
def shouldBeBorn (size : Int) (cells : List Cell) (neighbour : Cell) : Bool :=
  (bornScan size cells neighbour).1 == 3

/-- Model of `setOwner(cell)`: `cell.owner = most(cell.tmpAliveNeighbours)`, then the
scratch list is cleared (here: simply not propagated).  `none` when `most`
throws. -/
def setOwner (cell : Cell) (tmp : List Cell) : Option Cell :=
  (most tmp).map (fun o => { cell with owner := o })

/-- The fresh neighbour cell `new Cell(xMod, yMod)` probed by the candidate
scan (owner defaults to `-1` in the `Cell` constructor's modelled use). -/
def neighbourCellOf (size : Int) (c : Cell) (s : Int × Int) : Cell :=
  { owner := -1, x := wrapCoord size (c.x + s.1), y := wrapCoord size (c.y + s.2) }

/-- Body of the candidate double loop in `next`: skip live neighbours and
already-checked coordinates; otherwise mark the coordinate checked and, if
`shouldBeBorn`, set the owner and push the newborn. -/
def candidateStep (size : Int) (cells : List Cell) (currentCell : Cell)
    (st : List (Int × Int) × List Cell) (s : Int × Int) :
    Option (List (Int × Int) × List Cell) :=
  if isAlive cells (neighbourCellOf size currentCell s) then some st
  else if ((neighbourCellOf size currentCell s).x, (neighbourCellOf size currentCell s).y) ∈ st.1
  then some st
  else if (bornScan size cells (neighbourCellOf size currentCell s)).1 = 3 then
    (setOwner (neighbourCellOf size currentCell s)
        (bornScan size cells (neighbourCellOf size currentCell s)).2).map
      (fun owned =>
        (st.1 ++ [((neighbourCellOf size currentCell s).x, (neighbourCellOf size currentCell s).y)],
         st.2 ++ [owned]))
  else
    some (st.1 ++ [((neighbourCellOf size currentCell s).x, (neighbourCellOf size currentCell s).y)],
      st.2)

/-- The inner `for (i) for (j)` loop of the candidate scan for one live cell. -/
def scanCellNeighbours (size : Int) (cells : List Cell)
    (st : List (Int × Int) × List Cell) (currentCell : Cell) :
    Option (List (Int × Int) × List Cell) :=
  List.foldlM (candidateStep size cells currentCell) st neighbourShifts

/-- The `for (let k = 0; k < this.cells.length; k++)` candidate scan of
`next`, producing the `checked` coordinate set and the `newBorns` list. -/
def birthPass (size : Int) (cells : List Cell) :
    Option (List (Int × Int) × List Cell) :=
  List.foldlM (scanCellNeighbours size cells) ([], []) cells

/-- Model of `grid.next(turnMoves)`: apply moves, run the birth pass, filter survivors
with `isHealthy`, and commit `[...newBorns, ...stillAliveCells]`.  `none`
models the `TypeError` thrown by `most` on an empty tally. -/
def Grid.next (g : Grid) (turnMoves : List Move) : Option Grid :=
  match birthPass g.size (applyMoves g.cells turnMoves) with
  | none => none
  | some st =>
      some { g with
        cells := st.2 ++ (applyMoves g.cells turnMoves).filter
          (isHealthy g.size (applyMoves g.cells turnMoves)) }

/-- The live-neighbour count of a coordinate: how many of the 8 wrapped
neighbour coordinates are currently live. -/
def liveNeighbourCount (size : Int) (cells : List Cell) (x y : Int) : Nat :=
  (neighbourShifts.map (fun s => (wrapCoord size (x + s.1), wrapCoord size (y + s.2)))).countP
    (fun p => isAlive cells { owner := -1, x := p.1, y := p.2 })

/-- At most one live cell per coordinate pair (the spec's set invariant). -/
def coordUnique (cells : List Cell) : Prop :=
  List.Pairwise (fun a b => Cell.equals a b = false) cells

/-- Number of votes a player receives in `most`'s tally. -/
def voteTally (ns : List Cell) (p : Int) : Nat :=
  ns.countP (fun c => c.owner == p)

/-- All cells within `[0, size)` on both axes. -/
def inBounds (size : Int) (cells : List Cell) : Prop :=
  ∀ c ∈ cells, 0 ≤ c.x ∧ c.x < size ∧ 0 ≤ c.y ∧ c.y < size

/-! ### Basic lemmas about the embedded primitives -/

theorem neighbourShifts_eq :
    neighbourShifts = [(-1, -1), (-1, 0), (-1, 1), (0, -1), (0, 1), (1, -1), (1, 0), (1, 1)] := by
  decide

theorem equals_iff {c d : Cell} : Cell.equals c d = true ↔ d.x = c.x ∧ d.y = c.y := by
  simp [Cell.equals]

theorem equals_false_iff {c d : Cell} : Cell.equals c d = false ↔ ¬(d.x = c.x ∧ d.y = c.y) := by
  rw [← Bool.not_eq_true, equals_iff]

theorem isAlive_eq_any (cells : List Cell) (cell : Cell) :
    isAlive cells cell = cells.any (fun c => c.equals cell) := by
  simp [isAlive, List.findIdx?_isSome]

theorem isAlive_iff {cells : List Cell} {cell : Cell} :
    isAlive cells cell = true ↔ ∃ c ∈ cells, cell.x = c.x ∧ cell.y = c.y := by
  rw [isAlive_eq_any]
  simp only [List.any_eq_true, equals_iff]

theorem isAlive_false_iff {cells : List Cell} {cell : Cell} :
    isAlive cells cell = false ↔ ∀ c ∈ cells, ¬(cell.x = c.x ∧ cell.y = c.y) := by
  rw [← Bool.not_eq_true, isAlive_iff]
  push_neg
  constructor
  · intro h c hc h1 h2; exact h c hc h1 h2
  · intro h c hc h1 h2; exact h c hc h1 h2

/-- Variant of `isAlive_iff` with the probe cell's projections reduced. -/
theorem isAlive_mk_iff {cells : List Cell} {o x y : Int} :
    isAlive cells ⟨o, x, y⟩ = true ↔ ∃ c ∈ cells, x = c.x ∧ y = c.y := by
  simpa using @isAlive_iff cells ⟨o, x, y⟩

/-- Variant of `isAlive_false_iff` with the probe cell's projections reduced. -/
theorem isAlive_mk_false_iff {cells : List Cell} {o x y : Int} :
    isAlive cells ⟨o, x, y⟩ = false ↔ ∀ c ∈ cells, ¬(x = c.x ∧ y = c.y) := by
  simpa using @isAlive_false_iff cells ⟨o, x, y⟩

/-- Reduction of `Cell.equals` on explicit cells, reduced to a coordinate proposition. -/
theorem equals_mk_iff {o1 x1 y1 o2 x2 y2 : Int} :
    Cell.equals ⟨o1, x1, y1⟩ ⟨o2, x2, y2⟩ = true ↔ x2 = x1 ∧ y2 = y1 := by
  simp [Cell.equals]

theorem equals_mk_false_iff {o1 x1 y1 o2 x2 y2 : Int} :
    Cell.equals ⟨o1, x1, y1⟩ ⟨o2, x2, y2⟩ = false ↔ ¬(x2 = x1 ∧ y2 = y1) := by
  rw [← Bool.not_eq_true, equals_mk_iff]

/-- Variant of `equals_false_iff` with only the second cell explicit. -/
theorem equals_false_iff_mk {c : Cell} {o x y : Int} :
    Cell.equals c ⟨o, x, y⟩ = false ↔ ¬(x = c.x ∧ y = c.y) := by
  simpa using @equals_false_iff c ⟨o, x, y⟩

/-- The liveness of a coordinate does not depend on the probe cell's owner. -/
theorem isAlive_owner_irrel (cells : List Cell) (o o' x y : Int) :
    isAlive cells ⟨o, x, y⟩ = isAlive cells ⟨o', x, y⟩ := by
  simp [isAlive, List.findIdx?_isSome, Cell.equals]

theorem mem_isAlive {cells : List Cell} {c : Cell} (hc : c ∈ cells) (o : Int) :
    isAlive cells ⟨o, c.x, c.y⟩ = true :=
  isAlive_iff.mpr ⟨c, hc, rfl, rfl⟩

/-- Wrap-around arithmetic keeps single-step shifts of in-bounds coordinates
in bounds. -/
theorem wrapCoord_bounds {size x i : Int} (hsize : 0 < size)
    (hx0 : 0 ≤ x) (hx : x < size) (hi0 : -1 ≤ i) (hi : i ≤ 1) :
    0 ≤ wrapCoord size (x + i) ∧ wrapCoord size (x + i) < size := by
  unfold wrapCoord
  by_cases h : x + i < 0
  · rw [if_pos h]
    constructor
    · omega
    · omega
  · rw [if_neg h]
    push_neg at h
    constructor
    · exact Int.tmod_nonneg size h
    · exact Int.tmod_lt_of_pos _ hsize

/-- Edge wrap identities: coordinate `0` shifted by `-1` wraps to `size - 1`,
and `size - 1` shifted by `+1` wraps to `0`. -/
theorem wrapCoord_edge {size : Int} (hsize : 0 < size) :
    wrapCoord size (0 + (-1)) = size - 1 ∧ wrapCoord size ((size - 1) + 1) = 0 := by
  constructor
  · unfold wrapCoord
    rw [if_pos (by omega)]
    omega
  · unfold wrapCoord
    rw [if_neg (by omega)]
    have : size - 1 + 1 = size := by omega
    rw [this]
    exact Int.tmod_self

/-- In-bounds coordinates are fixed by the wrap. -/
theorem wrapCoord_of_bounds {size x : Int} (hx0 : 0 ≤ x) (hx : x < size) :
    wrapCoord size x = x := by
  unfold wrapCoord
  rw [if_neg (by omega)]
  rw [Int.tmod_eq_emod hx0 (by omega)]
  exact Int.emod_eq_of_lt hx0 hx

/-! ### Move application (`flipMove`, `applyMoves`) -/

/-- Unfolding of `flipMove` on a head cell that matches the move's coordinates. -/
theorem flipMove_cons_match {c : Cell} {cs : List Cell} {m : Move}
    (h : c.x = m.x ∧ c.y = m.y) : flipMove (c :: cs) m = cs := by
  unfold flipMove
  rw [List.findIdx?_cons]
  have hp : Cell.equals c ⟨m.playerid, m.x, m.y⟩ = true := equals_iff.mpr ⟨h.1.symm, h.2.symm⟩
  simp [hp, List.eraseIdx]

/-- Unfolding of `flipMove` on a head cell that does not match. -/
theorem flipMove_cons_nomatch {c : Cell} {cs : List Cell} {m : Move}
    (h : ¬(c.x = m.x ∧ c.y = m.y)) : flipMove (c :: cs) m = c :: flipMove cs m := by
  unfold flipMove
  rw [List.findIdx?_cons]
  have hp : Cell.equals c ⟨m.playerid, m.x, m.y⟩ = false := by
    rw [equals_false_iff]
    intro hcon
    exact h ⟨hcon.1.symm, hcon.2.symm⟩
  rw [hp]
  simp only [Bool.false_eq_true, if_false]
  cases hfi : cs.findIdx? (fun cell => cell.equals (⟨m.playerid, m.x, m.y⟩ : Cell)) with
  | none => simp [hfi, List.cons_append]
  | some i => simp [hfi, List.eraseIdx]

theorem flipMove_nil {m : Move} : flipMove [] m = [⟨m.playerid, m.x, m.y⟩] := by
  unfold flipMove
  simp

/-- Every cell of `flipMove cells m` is an old cell or the freshly pushed flip
cell with the move's exact coordinates and `owner = m.playerid`. -/
theorem mem_flipMove {cells : List Cell} {m : Move} {c : Cell}
    (hc : c ∈ flipMove cells m) : c ∈ cells ∨ c = ⟨m.playerid, m.x, m.y⟩ := by
  unfold flipMove at hc
  cases hfi : cells.findIdx? (fun cell => cell.equals (⟨m.playerid, m.x, m.y⟩ : Cell)) with
  | none =>
      rw [hfi] at hc
      simp only [List.mem_append, List.mem_singleton] at hc
      exact hc
  | some i =>
      rw [hfi] at hc
      exact Or.inl (List.mem_of_mem_eraseIdx hc)

/-- A move toggles the liveness of its own coordinate (on a duplicate-free
live set). -/
theorem flipMove_toggle {cells : List Cell} {m : Move} (huniq : coordUnique cells) :
    isAlive (flipMove cells m) ⟨-1, m.x, m.y⟩ = !isAlive cells ⟨-1, m.x, m.y⟩ := by
  induction cells with
  | nil =>
      rw [flipMove_nil, isAlive_eq_any, isAlive_eq_any]
      simp [Cell.equals]
  | cons c cs ih =>
      by_cases hm : c.x = m.x ∧ c.y = m.y
      · rw [flipMove_cons_match hm]
        have halive : isAlive (c :: cs) ⟨-1, m.x, m.y⟩ = true :=
          isAlive_iff.mpr ⟨c, List.mem_cons_self c cs, hm.1.symm, hm.2.symm⟩
        have hdead : isAlive cs ⟨-1, m.x, m.y⟩ = false := by
          rw [isAlive_mk_false_iff]
          intro d hd hcon
          have hcd := (List.pairwise_cons.mp huniq).1 d hd
          rw [equals_false_iff] at hcd
          obtain ⟨h1, h2⟩ := hm
          obtain ⟨h3, h4⟩ := hcon
          exact hcd ⟨by omega, by omega⟩
        rw [halive, hdead]
        rfl
      · rw [flipMove_cons_nomatch hm]
        have hch : Cell.equals c ⟨-1, m.x, m.y⟩ = false := by
          rw [equals_false_iff]
          intro hcon
          exact hm ⟨hcon.1.symm, hcon.2.symm⟩
        rw [isAlive_eq_any, isAlive_eq_any, List.any_cons, List.any_cons, hch]
        rw [← isAlive_eq_any, ← isAlive_eq_any]
        simp only [Bool.false_or]
        exact ih (List.pairwise_cons.mp huniq).2

/-- A move leaves the liveness of every other coordinate unchanged. -/
theorem flipMove_other {cells : List Cell} {m : Move} {x y : Int}
    (h : ¬(m.x = x ∧ m.y = y)) :
    isAlive (flipMove cells m) ⟨-1, x, y⟩ = isAlive cells ⟨-1, x, y⟩ := by
  induction cells with
  | nil =>
      rw [flipMove_nil, isAlive_eq_any, isAlive_eq_any]
      have : Cell.equals ⟨m.playerid, m.x, m.y⟩ ⟨-1, x, y⟩ = false := by
        rw [equals_mk_false_iff]
        intro hcon
        exact h ⟨hcon.1.symm, hcon.2.symm⟩
      simp [this]
  | cons c cs ih =>
      by_cases hm : c.x = m.x ∧ c.y = m.y
      · rw [flipMove_cons_match hm]
        have : Cell.equals c ⟨-1, x, y⟩ = false := by
          rw [equals_false_iff_mk]
          intro hcon
          obtain ⟨h1, h2⟩ := hm
          obtain ⟨h3, h4⟩ := hcon
          exact h ⟨by omega, by omega⟩
        rw [isAlive_eq_any (c :: cs), List.any_cons, this]
        simp only [Bool.false_or]
        rw [← isAlive_eq_any]
      · rw [flipMove_cons_nomatch hm]
        rw [isAlive_eq_any, isAlive_eq_any, List.any_cons, List.any_cons]
        rw [← isAlive_eq_any, ← isAlive_eq_any, ih]

/-- Lemma: `flipMove` preserves the at-most-one-cell-per-coordinate invariant. -/
theorem flipMove_coordUnique {cells : List Cell} {m : Move} (huniq : coordUnique cells) :
    coordUnique (flipMove cells m) := by
  unfold flipMove
  cases hfi : cells.findIdx? (fun cell => cell.equals (⟨m.playerid, m.x, m.y⟩ : Cell)) with
  | some i => exact List.Pairwise.sublist (List.eraseIdx_sublist cells i) huniq
  | none =>
      rw [List.findIdx?_eq_none_iff] at hfi
      apply List.pairwise_append.mpr
      refine ⟨huniq, List.pairwise_singleton _ _, ?_⟩
      intro a ha b hb
      rw [List.mem_singleton] at hb
      subst hb
      have := hfi a ha
      rw [equals_false_iff] at this ⊢
      intro hcon
      exact this ⟨hcon.1, hcon.2⟩

theorem applyMoves_coordUnique {cells : List Cell} {moves : List Move}
    (huniq : coordUnique cells) : coordUnique (applyMoves cells moves) := by
  induction moves generalizing cells with
  | nil => exact huniq
  | cons m ms ih => exact ih (flipMove_coordUnique huniq)

theorem mem_applyMoves {cells : List Cell} {moves : List Move} {c : Cell}
    (hc : c ∈ applyMoves cells moves) :
    c ∈ cells ∨ ∃ m ∈ moves, c = ⟨m.playerid, m.x, m.y⟩ := by
  induction moves generalizing cells with
  | nil => exact Or.inl hc
  | cons m ms ih =>
      rcases ih hc with h | ⟨m', hm', hc'⟩
      · rcases mem_flipMove h with h' | h'
        · exact Or.inl h'
        · exact Or.inr ⟨m, List.mem_cons_self m ms, h'⟩
      · exact Or.inr ⟨m', List.mem_cons_of_mem m hm', hc'⟩

/-- Toggle parity, both cases: after a batch, a coordinate's liveness is its
old liveness flipped once per matching move. -/
theorem applyMoves_parity {moves : List Move} {x y : Int} :
    ∀ {cells : List Cell}, coordUnique cells →
    isAlive (applyMoves cells moves) ⟨-1, x, y⟩ =
      (if moves.countP (fun m => m.x == x && m.y == y) % 2 = 0
       then isAlive cells ⟨-1, x, y⟩ else !isAlive cells ⟨-1, x, y⟩) := by
  induction moves with
  | nil => intro cells _; rfl
  | cons m ms ih =>
      intro cells huniq
      by_cases hm : m.x = x ∧ m.y = y
      · have hcnt : (m :: ms).countP (fun m => m.x == x && m.y == y)
            = ms.countP (fun m => m.x == x && m.y == y) + 1 := by
          rw [List.countP_cons]
          simp [hm.1, hm.2]
        have hflip : isAlive (flipMove cells m) ⟨-1, x, y⟩ = !isAlive cells ⟨-1, x, y⟩ := by
          have := @flipMove_toggle cells m huniq
          rw [hm.1, hm.2] at this
          exact this
        show isAlive (applyMoves (flipMove cells m) ms) ⟨-1, x, y⟩ = _
        rw [ih (flipMove_coordUnique huniq), hflip, hcnt]
        rcases Nat.even_or_odd (ms.countP (fun m => m.x == x && m.y == y)) with he | ho
        · have h1 : ms.countP (fun m => m.x == x && m.y == y) % 2 = 0 := Nat.even_iff.mp he
          have h2 : (ms.countP (fun m => m.x == x && m.y == y) + 1) % 2 ≠ 0 := by omega
          rw [if_pos h1, if_neg h2]
        · have h1 : ms.countP (fun m => m.x == x && m.y == y) % 2 ≠ 0 := by
            have := Nat.odd_iff.mp ho
            omega
          have h2 : (ms.countP (fun m => m.x == x && m.y == y) + 1) % 2 = 0 := by
            have := Nat.odd_iff.mp ho
            omega
          rw [if_neg h1, if_pos h2, Bool.not_not]
      · have hcnt : (m :: ms).countP (fun m => m.x == x && m.y == y)
            = ms.countP (fun m => m.x == x && m.y == y) := by
          rw [List.countP_cons]
          have : (m.x == x && m.y == y) = false := by
            simp only [Bool.and_eq_false_iff, beq_eq_false_iff_ne]
            omega
          simp [this]
        show isAlive (applyMoves (flipMove cells m) ms) ⟨-1, x, y⟩ = _
        rw [ih (flipMove_coordUnique huniq), flipMove_other hm, hcnt]

/-! ### Neighbour counting (`bornScan`, `getAliveNeighboursOf`) -/

/-- The wrapped neighbour coordinate of a cell under a shift. -/
def shiftCoord (size : Int) (x y : Int) (s : Int × Int) : Int × Int :=
  (wrapCoord size (x + s.1), wrapCoord size (y + s.2))

theorem liveNeighbourCount_eq (size : Int) (cells : List Cell) (x y : Int) :
    liveNeighbourCount size cells x y =
      (neighbourShifts.map (shiftCoord size x y)).countP
        (fun p => isAlive cells ⟨-1, p.1, p.2⟩) := rfl

/-- The counter of `shouldBeBorn` counts exactly the live wrapped neighbour
coordinates. -/
theorem bornScan_fst (size : Int) (cells : List Cell) (c : Cell) :
    (bornScan size cells c).1 = liveNeighbourCount size cells c.x c.y := by
  rw [liveNeighbourCount_eq]
  unfold bornScan
  suffices h : ∀ (l : List (Int × Int)) (n : Nat) (tmp : List Cell),
      (l.foldl (bornStep size cells c) (n, tmp)).1 =
        n + (l.map (shiftCoord size c.x c.y)).countP (fun p => isAlive cells ⟨-1, p.1, p.2⟩) by
    simpa using h neighbourShifts 0 []
  intro l
  induction l with
  | nil => intro n tmp; simp
  | cons s t ih =>
      intro n tmp
      rw [List.foldl_cons, List.map_cons, List.countP_cons]
      cases hf : cells.find? (fun cell =>
          cell.equals ⟨-1, wrapCoord size (c.x + s.1), wrapCoord size (c.y + s.2)⟩) with
      | some g =>
          have hp := List.find?_some hf
          have halive : isAlive cells
              ⟨-1, wrapCoord size (c.x + s.1), wrapCoord size (c.y + s.2)⟩ = true := by
            rw [isAlive_eq_any, List.any_eq_true]
            exact ⟨g, List.mem_of_find?_eq_some hf, hp⟩
          have hstep : bornStep size cells c (n, tmp) s = (n + 1, tmp ++ [g]) := by
            unfold bornStep
            rw [hf]
          rw [hstep, ih]
          simp only [shiftCoord, halive, List.countP_map]
          simp
          omega
      | none =>
          have hdead : isAlive cells
              ⟨-1, wrapCoord size (c.x + s.1), wrapCoord size (c.y + s.2)⟩ = false := by
            rw [isAlive_eq_any]
            rw [List.find?_eq_none] at hf
            simp only [List.any_eq_false]
            intro d hd
            exact hf d hd
          have hstep : bornStep size cells c (n, tmp) s = (n, tmp) := by
            unfold bornStep
            rw [hf]
          rw [hstep, ih]
          simp [shiftCoord, hdead]

/-- Lemma: `bornScan` ignores the owner of the probed candidate. -/
theorem bornScan_owner (size : Int) (cells : List Cell) (c : Cell) :
    bornScan size cells ⟨-1, c.x, c.y⟩ = bornScan size cells c := rfl

/-- Every recorded `tmpAliveNeighbours` entry is a live grid cell, and the
list's length is the counter. -/
theorem bornScan_snd (size : Int) (cells : List Cell) (c : Cell) :
    (∀ t ∈ (bornScan size cells c).2, t ∈ cells) ∧
      (bornScan size cells c).2.length = (bornScan size cells c).1 := by
  unfold bornScan
  suffices h : ∀ (l : List (Int × Int)) (n : Nat) (tmp : List Cell),
      (∀ t ∈ tmp, t ∈ cells) → tmp.length = n →
      (∀ t ∈ (l.foldl (bornStep size cells c) (n, tmp)).2, t ∈ cells) ∧
        (l.foldl (bornStep size cells c) (n, tmp)).2.length =
          (l.foldl (bornStep size cells c) (n, tmp)).1 by
    exact h neighbourShifts 0 [] (by simp) rfl
  intro l
  induction l with
  | nil => intro n tmp h1 h2; exact ⟨h1, h2⟩
  | cons s t ih =>
      intro n tmp h1 h2
      rw [List.foldl_cons]
      cases hf : cells.find? (fun cell =>
          cell.equals ⟨-1, wrapCoord size (c.x + s.1), wrapCoord size (c.y + s.2)⟩) with
      | some g =>
          have hstep : bornStep size cells c (n, tmp) s = (n + 1, tmp ++ [g]) := by
            unfold bornStep
            rw [hf]
          rw [hstep]
          refine ih (n + 1) (tmp ++ [g]) ?_ ?_
          · intro u hu
            rcases List.mem_append.mp hu with h | h
            · exact h1 u h
            · rw [List.mem_singleton] at h
              subst h
              exact List.mem_of_find?_eq_some hf
          · rw [List.length_append]
            simp [h2]
      | none =>
          have hstep : bornStep size cells c (n, tmp) s = (n, tmp) := by
            unfold bornStep
            rw [hf]
          rw [hstep]
          exact ih n tmp h1 h2

/-- Under the coordinate-uniqueness invariant, the survival count
`getAliveNeighboursOf(cell).length` is the number of live wrapped neighbour
coordinates. -/
theorem getAliveNeighboursOf_length (size : Int) {cells : List Cell}
    (huniq : coordUnique cells) (c : Cell) :
    (getAliveNeighboursOf size cells c).length = liveNeighbourCount size cells c.x c.y := by
  rw [liveNeighbourCount_eq]
  unfold getAliveNeighboursOf getNeighboursOf
  induction neighbourShifts with
  | nil => simp
  | cons s t ih =>
      rw [List.flatMap_cons, List.map_cons, List.countP_cons, List.filter_append,
        List.length_append, ih]
      have hgoal : ((if (cells.filter (fun oldCell => oldCell.equals
          ⟨-1, wrapCoord size (c.x + s.1), wrapCoord size (c.y + s.2)⟩)).isEmpty
          then [(⟨-1, wrapCoord size (c.x + s.1), wrapCoord size (c.y + s.2)⟩ : Cell)]
          else cells.filter (fun oldCell => oldCell.equals
            ⟨-1, wrapCoord size (c.x + s.1), wrapCoord size (c.y + s.2)⟩)).filter
            (isAlive cells)).length =
          if isAlive cells ⟨-1, (shiftCoord size c.x c.y s).1,
            (shiftCoord size c.x c.y s).2⟩ = true then 1 else 0 := by
        by_cases hemp : (cells.filter (fun oldCell => oldCell.equals
            ⟨-1, wrapCoord size (c.x + s.1), wrapCoord size (c.y + s.2)⟩)).isEmpty
        · rw [if_pos hemp]
          rw [List.isEmpty_iff, List.filter_eq_nil_iff] at hemp
          have hdead : isAlive cells
              ⟨-1, wrapCoord size (c.x + s.1), wrapCoord size (c.y + s.2)⟩ = false := by
            rw [isAlive_eq_any]
            simp only [List.any_eq_false]
            intro d hd
            exact hemp d hd
          rw [List.filter_cons, hdead]
          simp only [Bool.false_eq_true, if_false, List.filter_nil, List.length_nil]
          rw [if_neg]
          rw [show (shiftCoord size c.x c.y s).1 = wrapCoord size (c.x + s.1) from rfl,
            show (shiftCoord size c.x c.y s).2 = wrapCoord size (c.y + s.2) from rfl, hdead]
          exact Bool.false_ne_true
        · rw [if_neg hemp]
          rw [List.isEmpty_iff] at hemp
          obtain ⟨d, hd⟩ := List.exists_mem_of_ne_nil _ hemp
          have hdmem := List.mem_filter.mp hd
          have halive : isAlive cells
              ⟨-1, wrapCoord size (c.x + s.1), wrapCoord size (c.y + s.2)⟩ = true := by
            rw [isAlive_eq_any, List.any_eq_true]
            exact ⟨d, hdmem.1, hdmem.2⟩
          have hall : ∀ u ∈ cells.filter (fun oldCell => oldCell.equals
              ⟨-1, wrapCoord size (c.x + s.1), wrapCoord size (c.y + s.2)⟩),
              isAlive cells u = true := by
            intro u hu
            have humem := List.mem_filter.mp hu
            exact isAlive_iff.mpr ⟨u, humem.1, rfl, rfl⟩
          rw [List.filter_eq_self.mpr hall]
          have hlen : (cells.filter (fun oldCell => oldCell.equals
              ⟨-1, wrapCoord size (c.x + s.1), wrapCoord size (c.y + s.2)⟩)).length = 1 := by
            have hpw := List.Pairwise.filter
              (fun oldCell => oldCell.equals
                ⟨-1, wrapCoord size (c.x + s.1), wrapCoord size (c.y + s.2)⟩) huniq
            cases hfl : cells.filter (fun oldCell => oldCell.equals
                ⟨-1, wrapCoord size (c.x + s.1), wrapCoord size (c.y + s.2)⟩) with
            | nil => rw [hfl] at hd; exact absurd hd (List.not_mem_nil d)
            | cons d1 rest =>
                cases rest with
                | nil => rfl
                | cons d2 rest2 =>
                    rw [hfl] at hpw
                    have h12 := (List.pairwise_cons.mp hpw).1 d2 (List.mem_cons_self d2 rest2)
                    have hd1 : d1 ∈ cells.filter (fun oldCell => oldCell.equals
                        ⟨-1, wrapCoord size (c.x + s.1), wrapCoord size (c.y + s.2)⟩) := by
                      rw [hfl]; exact List.mem_cons_self d1 (d2 :: rest2)
                    have hd2 : d2 ∈ cells.filter (fun oldCell => oldCell.equals
                        ⟨-1, wrapCoord size (c.x + s.1), wrapCoord size (c.y + s.2)⟩) := by
                      rw [hfl]; exact List.mem_cons_of_mem d1 (List.mem_cons_self d2 rest2)
                    exfalso
                    have q1 := equals_iff.mp (List.mem_filter.mp hd1).2
                    have q2 := equals_iff.mp (List.mem_filter.mp hd2).2
                    rw [equals_false_iff] at h12
                    obtain ⟨q1a, q1b⟩ := q1
                    obtain ⟨q2a, q2b⟩ := q2
                    exact h12 ⟨by omega, by omega⟩
          rw [hlen, if_pos]
          exact halive
      rw [hgoal]
      omega

/-! ### The ownership vote (`most`) -/

theorem tallyInsert_cons_skip {e : Int × Nat} {t : List (Int × Nat)} {o : Int}
    (h : (e.1 == o) = false) : tallyInsert (e :: t) o = e :: tallyInsert t o := by
  unfold tallyInsert
  rw [List.any_cons, h]
  simp only [Bool.false_or]
  by_cases ht : t.any (fun e => e.1 == o)
  · rw [if_pos ht, if_pos ht, List.map_cons, if_neg (by simp [h])]
  · rw [if_neg ht, if_neg ht, List.cons_append]

theorem lookupCount_cons {e : Int × Nat} {t : List (Int × Nat)} {k : Int} :
    lookupCount (e :: t) k = if (e.1 == k) = true then e.2 else lookupCount t k := by
  unfold lookupCount
  by_cases h : (e.1 == k) = true
  · simp [List.find?_cons_of_pos, h]
  · simp [List.find?_cons_of_neg, h]

theorem lookupCount_tallyInsert_self (m : List (Int × Nat)) (o : Int) :
    lookupCount (tallyInsert m o) o = lookupCount m o + 1 := by
  induction m with
  | nil => simp [tallyInsert, lookupCount]
  | cons e t ih =>
      by_cases h : (e.1 == o) = true
      · unfold tallyInsert
        rw [List.any_cons, h]
        simp only [Bool.true_or, if_true, List.map_cons, if_pos h]
        rw [lookupCount_cons, lookupCount_cons]
        simp only [h, if_true]
      · rw [tallyInsert_cons_skip (by simpa using h)]
        rw [lookupCount_cons, lookupCount_cons]
        rw [if_neg (by simp [h]), if_neg (by simp [h])]
        exact ih

theorem lookupCount_tallyInsert_other {m : List (Int × Nat)} {o k : Int} (hk : k ≠ o) :
    lookupCount (tallyInsert m o) k = lookupCount m k := by
  induction m with
  | nil =>
      simp only [tallyInsert, List.any_nil, Bool.false_eq_true, if_false, List.nil_append]
      rw [lookupCount_cons]
      rw [if_neg (by simp only [beq_iff_eq]; omega)]
  | cons e t ih =>
      by_cases h : (e.1 == o) = true
      · unfold tallyInsert
        rw [List.any_cons, h]
        simp only [Bool.true_or, if_true, List.map_cons, if_pos h]
        rw [lookupCount_cons, lookupCount_cons]
        have he : (e.1 == k) = false := by
          rw [beq_iff_eq] at h
          simp [h, hk]
          omega
        rw [if_neg (by simp [he]), if_neg (by simp [he])]
        -- remaining: lookup on mapped tail equals lookup on tail
        clear ih
        induction t with
        | nil => rfl
        | cons e2 t2 ih2 =>
            rw [List.map_cons, lookupCount_cons, lookupCount_cons]
            by_cases h2 : (e2.1 == o) = true
            · rw [if_pos h2]
              have he2 : (e2.1 == k) = false := by
                rw [beq_iff_eq] at h2
                simp
                omega
              rw [if_neg (by simp [he2]), if_neg (by simp [he2])]
              exact ih2
            · rw [if_neg h2]
              by_cases he2 : (e2.1 == k) = true
              · rw [if_pos he2, if_pos he2]
              · rw [if_neg he2, if_neg he2]
                exact ih2
      · rw [tallyInsert_cons_skip (by simpa using h)]
        rw [lookupCount_cons, lookupCount_cons]
        by_cases he : (e.1 == k) = true
        · rw [if_pos he, if_pos he]
        · rw [if_neg he, if_neg he]
          exact ih

theorem keys_tallyInsert (m : List (Int × Nat)) (o k : Int) :
    k ∈ (tallyInsert m o).map Prod.fst ↔ k ∈ m.map Prod.fst ∨ k = o := by
  unfold tallyInsert
  by_cases h : m.any (fun e => e.1 == o)
  · rw [if_pos h]
    have hkeys : (m.map (fun e => if (e.1 == o) = true then (e.1, e.2 + 1) else e)).map Prod.fst
        = m.map Prod.fst := by
      rw [List.map_map]
      apply List.map_congr_left
      intro a _
      by_cases ha : a.1 = o
      · simp [ha]
      · simp [ha]
    rw [hkeys]
    constructor
    · exact Or.inl
    · rintro (hk | rfl)
      · exact hk
      · rw [List.any_eq_true] at h
        obtain ⟨e, he, heq⟩ := h
        rw [beq_iff_eq] at heq
        exact List.mem_map.mpr ⟨e, he, heq⟩
  · rw [if_neg h, List.map_append]
    simp [eq_comm]

/-- Characterization of the tally's keys: exactly the owners (other than the
unowned sentinel) occurring among the voters. -/
theorem keys_playersCount (ns : List Cell) :
    ∀ (m : List (Int × Nat)) (k : Int),
      (k ∈ (ns.foldl tallyStep m).map Prod.fst ↔
        k ∈ m.map Prod.fst ∨ (k ≠ -1 ∧ ∃ c ∈ ns, c.owner = k)) := by
  induction ns with
  | nil => simp
  | cons c t ih =>
      intro m k
      rw [List.foldl_cons]
      by_cases hc : c.owner = -1
      · rw [show tallyStep m c = m from by unfold tallyStep; rw [if_pos hc], ih]
        constructor
        · rintro (hk | ⟨h1, d, hd, h2⟩)
          · exact Or.inl hk
          · exact Or.inr ⟨h1, d, List.mem_cons_of_mem c hd, h2⟩
        · rintro (hk | ⟨h1, d, hd, h2⟩)
          · exact Or.inl hk
          · rcases List.mem_cons.mp hd with rfl | hd2
            · exact absurd (hc ▸ h2) (Ne.symm h1)
            · exact Or.inr ⟨h1, d, hd2, h2⟩
      · rw [show tallyStep m c = tallyInsert m c.owner from by
            unfold tallyStep; rw [if_neg hc], ih, keys_tallyInsert]
        constructor
        · rintro (⟨hk | rfl⟩ | ⟨h1, d, hd, h2⟩)
          · exact Or.inl hk
          · exact Or.inr ⟨hc, c, List.mem_cons_self c t, rfl⟩
          · exact Or.inr ⟨h1, d, List.mem_cons_of_mem c hd, h2⟩
        · rintro (hk | ⟨h1, d, hd, h2⟩)
          · exact Or.inl (Or.inl hk)
          · rcases List.mem_cons.mp hd with rfl | hd2
            · exact Or.inl (Or.inr h2.symm)
            · exact Or.inr ⟨h1, d, hd2, h2⟩

/-- The tally of a non-sentinel owner is its vote count. -/
theorem lookupCount_playersCount {ns : List Cell} {k : Int} (hk : k ≠ -1) :
    lookupCount (playersCount ns) k = voteTally ns k := by
  unfold playersCount voteTally
  suffices h : ∀ m : List (Int × Nat),
      lookupCount (ns.foldl tallyStep m) k
        = lookupCount m k + ns.countP (fun c => c.owner == k) by
    simpa [lookupCount] using h []
  induction ns with
  | nil => simp
  | cons c t ih =>
      intro m
      rw [List.foldl_cons, List.countP_cons]
      by_cases hc : c.owner = -1
      · rw [show tallyStep m c = m from by unfold tallyStep; rw [if_pos hc], ih]
        have : (c.owner == k) = false := by
          rw [beq_eq_false_iff_ne]
          omega
        simp [this]
      · rw [show tallyStep m c = tallyInsert m c.owner from by
            unfold tallyStep; rw [if_neg hc], ih]
        by_cases hco : c.owner = k
        · rw [hco, lookupCount_tallyInsert_self]
          simp only [beq_self_eq_true, if_true]
          omega
        · rw [lookupCount_tallyInsert_other (by omega)]
          have : (c.owner == k) = false := by
            rw [beq_eq_false_iff_ne]
            exact hco
          simp [this]

theorem mem_insertAsc {a k : Int} : ∀ {l : List Int}, a ∈ insertAsc k l ↔ a = k ∨ a ∈ l := by
  intro l
  induction l with
  | nil => simp [insertAsc]
  | cons b t ih =>
      unfold insertAsc
      by_cases h : k ≤ b
      · simp [h]
      · rw [if_neg h]
        rw [List.mem_cons, ih, List.mem_cons]
        tauto

theorem mem_sortAsc {a : Int} : ∀ {l : List Int}, a ∈ sortAsc l ↔ a ∈ l := by
  intro l
  induction l with
  | nil => simp [sortAsc]
  | cons b t ih =>
      show a ∈ insertAsc b (sortAsc t) ↔ _
      rw [mem_insertAsc, ih, List.mem_cons]

theorem mem_objectKeysOrder {k : Int} {m : List (Int × Nat)} :
    k ∈ objectKeysOrder m ↔ k ∈ m.map Prod.fst := by
  unfold objectKeysOrder
  rw [List.mem_append, mem_sortAsc, List.mem_filter, List.mem_filter]
  by_cases hp : (decide (0 ≤ k) && decide (k < 4294967296)) = true
  · simp [hp]
  · simp only [hp]
    simp at hp
    constructor
    · rintro (⟨h, _⟩ | ⟨h, _⟩)
      · exact h
      · exact h
    · intro h
      right
      refine ⟨h, ?_⟩
      simp

/-- The `reduce` of `most` returns the strict maximizer when one exists. -/
theorem foldl_pick (cnt : Int → Nat) (M : Int) :
    ∀ (l : List Int) (a : Int), (a = M ∨ M ∈ l) →
      (∀ k, (k = a ∨ k ∈ l) → k ≠ M → cnt k < cnt M) →
      l.foldl (fun x y => if cnt x > cnt y then x else y) a = M := by
  intro l
  induction l with
  | nil =>
      intro a ha _
      rcases ha with rfl | h
      · rfl
      · exact absurd h (List.not_mem_nil M)
  | cons b t ih =>
      intro a ha hmax
      rw [List.foldl_cons]
      refine ih (if cnt a > cnt b then a else b) ?_ ?_
      · rcases ha with rfl | hM
        · by_cases h : cnt a > cnt b
          · rw [if_pos h]
            exact Or.inl rfl
          · by_cases hbM : b = a
            · rw [if_neg h]
              exact Or.inl hbM
            · exact absurd (hmax b (Or.inr (List.mem_cons_self b t)) hbM) (by omega)
        · rcases List.mem_cons.mp hM with rfl | hMt
          · by_cases haM : a = M
            · by_cases h : cnt a > cnt M
              · rw [if_pos h]
                exact Or.inl haM
              · rw [if_neg h]
                exact Or.inl rfl
            · have hlt := hmax a (Or.inl rfl) haM
              rw [if_neg (by omega)]
              exact Or.inl rfl
          · exact Or.inr hMt
      · intro k hk hkM
        refine hmax k ?_ hkM
        rcases hk with rfl | hkt
        · by_cases h : cnt a > cnt b
          · rw [if_pos h]
            exact Or.inl rfl
          · rw [if_neg h]
            exact Or.inr (List.mem_cons_self b t)
        · exact Or.inr (List.mem_cons_of_mem b hkt)

/-- If one player's vote tally strictly exceeds every other occurring
player's tally, `most` elects that player (whatever the key enumeration
order). -/
theorem most_unique_max {ns : List Cell} {M : Int} (hM : M ≠ -1)
    (hmem : ∃ c ∈ ns, c.owner = M)
    (hmax : ∀ o, o ≠ -1 → o ≠ M → (∃ c ∈ ns, c.owner = o) →
      voteTally ns o < voteTally ns M) :
    most ns = some M := by
  have hkeys : ∀ k, k ∈ (playersCount ns).map Prod.fst ↔
      (k ≠ -1 ∧ ∃ c ∈ ns, c.owner = k) := by
    intro k
    have := keys_playersCount ns [] k
    simpa [playersCount] using this
  have hMorder : M ∈ (objectKeysOrder (playersCount ns)).reverse := by
    rw [List.mem_reverse, mem_objectKeysOrder]
    exact (hkeys M).mpr ⟨hM, hmem⟩
  unfold most
  cases hrev : (objectKeysOrder (playersCount ns)).reverse with
  | nil =>
      rw [hrev] at hMorder
      exact absurd hMorder (List.not_mem_nil M)
  | cons a rest =>
      rw [hrev] at hMorder
      refine congrArg some (foldl_pick (lookupCount (playersCount ns)) M rest a ?_ ?_)
      · rcases List.mem_cons.mp hMorder with h | h
        · exact Or.inl h.symm
        · exact Or.inr h
      · intro k hk hkM
        have hkmem : k ∈ (playersCount ns).map Prod.fst := by
          have hkrev : k ∈ (objectKeysOrder (playersCount ns)).reverse := by
            rw [hrev]
            rcases hk with rfl | h
            · exact List.mem_cons_self k rest
            · exact List.mem_cons_of_mem a h
          rw [List.mem_reverse, mem_objectKeysOrder] at hkrev
          exact hkrev
        obtain ⟨hk1, hk2⟩ := (hkeys k).mp hkmem
        rw [lookupCount_playersCount hk1, lookupCount_playersCount hM]
        exact hmax k hk1 hkM hk2

/-- Lemma: `most` succeeds whenever some voter has a non-sentinel owner. -/
theorem most_isSome {ns : List Cell} (hne : ∃ c ∈ ns, c.owner ≠ -1) :
    (most ns).isSome = true := by
  obtain ⟨c, hc, hco⟩ := hne
  have hkeys : c.owner ∈ (playersCount ns).map Prod.fst := by
    have := keys_playersCount ns [] c.owner
    simp only [playersCount] at this ⊢
    rw [this]
    exact Or.inr ⟨hco, c, hc, rfl⟩
  have horder : c.owner ∈ (objectKeysOrder (playersCount ns)).reverse := by
    rw [List.mem_reverse, mem_objectKeysOrder]
    exact hkeys
  unfold most
  cases hrev : (objectKeysOrder (playersCount ns)).reverse with
  | nil =>
      rw [hrev] at horder
      exact absurd horder (List.not_mem_nil _)
  | cons a rest => rfl

/-! ### Generic `Option`-valued fold invariants -/

theorem foldlM_option_inv {α β : Type} {f : β → α → Option β} {P : β → Prop} :
    ∀ (l : List α) (init res : β), List.foldlM f init l = some res → P init →
      (∀ st x st', x ∈ l → P st → f st x = some st' → P st') → P res := by
  intro l
  induction l with
  | nil =>
      intro init res h hP _
      simp only [List.foldlM_nil] at h
      cases h
      exact hP
  | cons a t ih =>
      intro init res h hP hstep
      rw [List.foldlM_cons] at h
      cases hfa : f init a with
      | none =>
          rw [hfa] at h
          simp at h
      | some st1 =>
          rw [hfa] at h
          exact ih st1 res h (hstep init a st1 (List.mem_cons_self a t) hP hfa)
            (fun st x st' hx => hstep st x st' (List.mem_cons_of_mem a hx))

theorem foldlM_option_attain {α β : Type} {f : β → α → Option β} {Q : β → Prop} :
    ∀ (l : List α) (init res : β) (x0 : α), List.foldlM f init l = some res → x0 ∈ l →
      (∀ st st', f st x0 = some st' → Q st') →
      (∀ st x st', x ∈ l → Q st → f st x = some st' → Q st') → Q res := by
  intro l
  induction l with
  | nil =>
      intro init res x0 _ hx0 _ _
      exact absurd hx0 (List.not_mem_nil x0)
  | cons a t ih =>
      intro init res x0 h hx0 hestab hpres
      rw [List.foldlM_cons] at h
      cases hfa : f init a with
      | none =>
          rw [hfa] at h
          simp at h
      | some st1 =>
          rw [hfa] at h
          rcases List.mem_cons.mp hx0 with rfl | hx0t
          · exact foldlM_option_inv t st1 res h (hestab init st1 hfa)
              (fun st x st' hx hQ hf => hpres st x st' (List.mem_cons_of_mem _ hx) hQ hf)
          · exact ih st1 res x0 h hx0t hestab
              (fun st x st' hx hQ hf => hpres st x st' (List.mem_cons_of_mem _ hx) hQ hf)

theorem foldlM_option_isSome {α β : Type} {f : β → α → Option β} :
    ∀ (l : List α) (init : β), (∀ st x, x ∈ l → (f st x).isSome = true) →
      (List.foldlM f init l).isSome = true := by
  intro l
  induction l with
  | nil => intro init _; rfl
  | cons a t ih =>
      intro init hall
      rw [List.foldlM_cons]
      cases hfa : f init a with
      | none =>
          have := hall init a (List.mem_cons_self a t)
          rw [hfa] at this
          exact absurd this (by simp)
      | some st1 =>
          exact ih st1 (fun st x hx => hall st x (List.mem_cons_of_mem a hx))

/-! ### The candidate scan (`birthPass`) -/

/-- Invariant carried by the candidate scan's `(checked, newBorns)` state:
every newborn sits at a dead, checked coordinate that is a wrapped neighbour
of a live cell, was born with counter 3, and owes its owner to `most`; every
checked coordinate with counter 3 produced a newborn; newborn coordinates
are pairwise distinct. -/
def scanInv (size : Int) (cells : List Cell) (st : List (Int × Int) × List Cell) : Prop :=
  (∀ b ∈ st.2,
      isAlive cells ⟨-1, b.x, b.y⟩ = false ∧
      (bornScan size cells ⟨-1, b.x, b.y⟩).1 = 3 ∧
      most (bornScan size cells ⟨-1, b.x, b.y⟩).2 = some b.owner ∧
      (b.x, b.y) ∈ st.1 ∧
      (∃ L ∈ cells, ∃ s ∈ neighbourShifts,
        b.x = wrapCoord size (L.x + s.1) ∧ b.y = wrapCoord size (L.y + s.2))) ∧
  (∀ p ∈ st.1, (bornScan size cells ⟨-1, p.1, p.2⟩).1 = 3 →
      ∃ b ∈ st.2, b.x = p.1 ∧ b.y = p.2) ∧
  List.Pairwise (fun a b => Cell.equals a b = false) st.2

theorem candidateStep_pres {size : Int} {cells : List Cell} {currentCell : Cell}
    (hcc : currentCell ∈ cells) {st st' : List (Int × Int) × List Cell} {s : Int × Int}
    (hs : s ∈ neighbourShifts)
    (hf : candidateStep size cells currentCell st s = some st')
    (hP : scanInv size cells st) : scanInv size cells st' := by
  unfold candidateStep at hf
  by_cases h1 : isAlive cells (neighbourCellOf size currentCell s) = true
  · rw [if_pos h1] at hf
    cases hf
    exact hP
  · rw [if_neg h1] at hf
    by_cases h2 : ((neighbourCellOf size currentCell s).x,
        (neighbourCellOf size currentCell s).y) ∈ st.1
    · rw [if_pos h2] at hf
      cases hf
      exact hP
    · rw [if_neg h2] at hf
      have hdead : isAlive cells (neighbourCellOf size currentCell s) = false := by
        cases hh : isAlive cells (neighbourCellOf size currentCell s)
        · rfl
        · exact absurd hh h1
      obtain ⟨hP1, hP2, hP3⟩ := hP
      by_cases h3 : (bornScan size cells (neighbourCellOf size currentCell s)).1 = 3
      · rw [if_pos h3] at hf
        rw [Option.map_eq_some'] at hf
        obtain ⟨owned, hso, hst'⟩ := hf
        unfold setOwner at hso
        rw [Option.map_eq_some'] at hso
        obtain ⟨o, hmo, howned⟩ := hso
        subst hst'
        subst howned
        refine ⟨?_, ?_, ?_⟩
        · intro b hb
          rcases List.mem_append.mp hb with hold | hnew
          · obtain ⟨q1, q2, q3, q4, q5⟩ := hP1 b hold
            exact ⟨q1, q2, q3, List.mem_append_left _ q4, q5⟩
          · rw [List.mem_singleton] at hnew
            subst hnew
            refine ⟨hdead, h3, ?_, ?_, ?_⟩
            · exact hmo
            · exact List.mem_append_right _ (List.mem_singleton.mpr rfl)
            · exact ⟨currentCell, hcc, s, hs, rfl, rfl⟩
        · intro p hp h3p
          rcases List.mem_append.mp hp with hold | hnew
          · obtain ⟨b, hb, hbc⟩ := hP2 p hold h3p
            exact ⟨b, List.mem_append_left _ hb, hbc⟩
          · rw [List.mem_singleton] at hnew
            subst hnew
            refine ⟨_, List.mem_append_right _ (List.mem_singleton.mpr rfl), rfl, rfl⟩
        · rw [List.pairwise_append]
          refine ⟨hP3, List.pairwise_singleton _ _, ?_⟩
          intro b1 hb1 b2 hb2
          rw [List.mem_singleton] at hb2
          subst hb2
          obtain ⟨_, _, _, q4, _⟩ := hP1 b1 hb1
          rw [equals_false_iff]
          intro hcon
          apply h2
          have : ((neighbourCellOf size currentCell s).x,
              (neighbourCellOf size currentCell s).y) = (b1.x, b1.y) := by
            rw [Prod.mk.injEq]
            exact ⟨hcon.1, hcon.2⟩
          rw [this]
          exact q4
      · rw [if_neg h3] at hf
        cases hf
        refine ⟨?_, ?_, hP3⟩
        · intro b hb
          obtain ⟨q1, q2, q3, q4, q5⟩ := hP1 b hb
          exact ⟨q1, q2, q3, List.mem_append_left _ q4, q5⟩
        · intro p hp h3p
          simp only at hp
          rcases List.mem_append.mp hp with hold | hnew
          · exact hP2 p hold h3p
          · rw [List.mem_singleton] at hnew
            subst hnew
            exact absurd h3p h3

theorem candidateStep_checked_mono {size : Int} {cells : List Cell} {currentCell : Cell}
    {st st' : List (Int × Int) × List Cell} {s : Int × Int} {p : Int × Int}
    (hf : candidateStep size cells currentCell st s = some st')
    (hp : p ∈ st.1) : p ∈ st'.1 := by
  unfold candidateStep at hf
  by_cases h1 : isAlive cells (neighbourCellOf size currentCell s) = true
  · rw [if_pos h1] at hf
    cases hf
    exact hp
  · rw [if_neg h1] at hf
    by_cases h2 : ((neighbourCellOf size currentCell s).x,
        (neighbourCellOf size currentCell s).y) ∈ st.1
    · rw [if_pos h2] at hf
      cases hf
      exact hp
    · rw [if_neg h2] at hf
      by_cases h3 : (bornScan size cells (neighbourCellOf size currentCell s)).1 = 3
      · rw [if_pos h3] at hf
        rw [Option.map_eq_some'] at hf
        obtain ⟨owned, _, hst'⟩ := hf
        subst hst'
        exact List.mem_append_left _ hp
      · rw [if_neg h3] at hf
        cases hf
        exact List.mem_append_left _ hp

/-- Processing the dead wrapped neighbour itself puts its coordinate into the
checked set. -/
theorem candidateStep_establishes {size : Int} {cells : List Cell} {currentCell : Cell}
    {st st' : List (Int × Int) × List Cell} {s : Int × Int}
    (hdead : isAlive cells (neighbourCellOf size currentCell s) = false)
    (hf : candidateStep size cells currentCell st s = some st') :
    ((neighbourCellOf size currentCell s).x, (neighbourCellOf size currentCell s).y) ∈ st'.1 := by
  unfold candidateStep at hf
  rw [if_neg (by rw [hdead]; exact Bool.false_ne_true)] at hf
  by_cases h2 : ((neighbourCellOf size currentCell s).x,
      (neighbourCellOf size currentCell s).y) ∈ st.1
  · rw [if_pos h2] at hf
    cases hf
    exact h2
  · rw [if_neg h2] at hf
    by_cases h3 : (bornScan size cells (neighbourCellOf size currentCell s)).1 = 3
    · rw [if_pos h3] at hf
      rw [Option.map_eq_some'] at hf
      obtain ⟨owned, _, hst'⟩ := hf
      subst hst'
      exact List.mem_append_right _ (List.mem_singleton.mpr rfl)
    · rw [if_neg h3] at hf
      cases hf
      exact List.mem_append_right _ (List.mem_singleton.mpr rfl)

theorem scanCellNeighbours_pres {size : Int} {cells : List Cell} {currentCell : Cell}
    (hcc : currentCell ∈ cells) {st st' : List (Int × Int) × List Cell}
    (hf : scanCellNeighbours size cells st currentCell = some st')
    (hP : scanInv size cells st) : scanInv size cells st' :=
  foldlM_option_inv neighbourShifts st st' hf hP
    (fun _ s _ hs hP2 hf2 => candidateStep_pres hcc hs hf2 hP2)

/-- The scan invariant holds of `birthPass`'s result. -/
theorem birthPass_inv {size : Int} {cells : List Cell}
    {st : List (Int × Int) × List Cell} (h : birthPass size cells = some st) :
    scanInv size cells st := by
  refine foldlM_option_inv cells ([], []) st h ?_ ?_
  · exact ⟨fun b hb => absurd hb (List.not_mem_nil b),
      fun p hp _ => absurd hp (List.not_mem_nil p), List.Pairwise.nil⟩
  · intro st1 c st2 hc hP hf
    exact scanCellNeighbours_pres hc hf hP

/-- Every dead wrapped neighbour of a live cell ends up in the checked set. -/
theorem birthPass_checked {size : Int} {cells : List Cell}
    {st : List (Int × Int) × List Cell} (h : birthPass size cells = some st)
    {L : Cell} (hL : L ∈ cells) {s : Int × Int} (hs : s ∈ neighbourShifts)
    (hdead : isAlive cells (neighbourCellOf size L s) = false) :
    ((neighbourCellOf size L s).x, (neighbourCellOf size L s).y) ∈ st.1 := by
  refine @foldlM_option_attain _ _ _
    (fun st2 => ((neighbourCellOf size L s).x, (neighbourCellOf size L s).y) ∈ st2.1)
    cells ([], []) st L h hL ?_ ?_
  · intro st1 st1' hf
    refine @foldlM_option_attain _ _ _
      (fun st2 => ((neighbourCellOf size L s).x, (neighbourCellOf size L s).y) ∈ st2.1)
      neighbourShifts st1 st1' s hf hs ?_ ?_
    · intro st2 st2' hf2
      exact candidateStep_establishes hdead hf2
    · intro st2 s2 st2' _ hQ hf2
      exact candidateStep_checked_mono hf2 hQ
  · intro st1 c st1' _ hQ hf
    exact foldlM_option_inv neighbourShifts st1 st1' hf hQ
      (fun st2 s2 st2' _ hQ2 hf2 => candidateStep_checked_mono hf2 hQ2)

/-- Unfolding of a successful `next`. -/
theorem next_some_elim {g : Grid} {moves : List Move} {g' : Grid}
    (h : g.next moves = some g') :
    ∃ st, birthPass g.size (applyMoves g.cells moves) = some st ∧
      g'.size = g.size ∧
      g'.cells = st.2 ++ (applyMoves g.cells moves).filter
        (isHealthy g.size (applyMoves g.cells moves)) := by
  unfold Grid.next at h
  cases hb : birthPass g.size (applyMoves g.cells moves) with
  | none =>
      rw [hb] at h
      cases h
  | some st =>
      rw [hb] at h
      have h2 := Option.some.inj h
      exact ⟨st, rfl, by rw [← h2], by rw [← h2]⟩

/-! ### Claim theorems -/

/-- C3: toroidal adjacency — for every cell, both the birth counter
(`shouldBeBorn`) and the survival counter (`getAliveNeighboursOf`) count live
cells exactly over the 8 shifted coordinates `(x+i, y+j)`, `(i,j) ≠ (0,0)`,
each wrapped by `raw < 0 ? raw + size : raw % size`; in particular the
neighbourhood of `(0, y)` contains `(size-1, y)` and the neighbourhood of
`(size-1, y)` contains `(0, y)`. -/
theorem C3_toroidal_adjacency (size y : Int) (cells : List Cell)
    (hsize : 0 < size) (hy0 : 0 ≤ y) (hy : y < size) (huniq : coordUnique cells) :
    (∀ c : Cell, (bornScan size cells c).1 =
      (neighbourShifts.map (shiftCoord size c.x c.y)).countP
        (fun p => isAlive cells ⟨-1, p.1, p.2⟩)) ∧
    (∀ c : Cell, (getAliveNeighboursOf size cells c).length =
      (neighbourShifts.map (shiftCoord size c.x c.y)).countP
        (fun p => isAlive cells ⟨-1, p.1, p.2⟩)) ∧
    neighbourShifts = [(-1, -1), (-1, 0), (-1, 1), (0, -1), (0, 1), (1, -1), (1, 0), (1, 1)] ∧
    (∀ s : Int × Int, ∀ x : Int, shiftCoord size x y s =
      (wrapCoord size (x + s.1), wrapCoord size (y + s.2))) ∧
    (size - 1, y) ∈ neighbourShifts.map (shiftCoord size 0 y) ∧
    (0, y) ∈ neighbourShifts.map (shiftCoord size (size - 1) y) := by
  refine ⟨?_, ?_, neighbourShifts_eq, fun s x => rfl, ?_, ?_⟩
  · intro c
    rw [bornScan_fst, liveNeighbourCount_eq]
  · intro c
    rw [getAliveNeighboursOf_length size huniq, liveNeighbourCount_eq]
  · refine List.mem_map.mpr ⟨(-1, 0), by decide, ?_⟩
    unfold shiftCoord
    rw [Prod.mk.injEq]
    constructor
    · exact (wrapCoord_edge hsize).1
    · show wrapCoord size (y + 0) = y
      rw [Int.add_zero]
      exact wrapCoord_of_bounds hy0 hy
  · refine List.mem_map.mpr ⟨(1, 0), by decide, ?_⟩
    unfold shiftCoord
    rw [Prod.mk.injEq]
    constructor
    · exact (wrapCoord_edge hsize).2
    · show wrapCoord size (y + 0) = y
      rw [Int.add_zero]
      exact wrapCoord_of_bounds hy0 hy

/-- C4: moves are applied sequentially in order as exact-coordinate toggles —
a dead target inserts a cell owned by the move's player at the exact
(unwrapped) coordinates, a live target is removed (the match ignores owner),
and a coordinate toggled exactly twice in one batch ends at its pre-batch
liveness. -/
theorem C4_toggle_moves (cells : List Cell) (moves : List Move) (x y : Int)
    (huniq : coordUnique cells)
    (htwice : moves.countP (fun m => m.x == x && m.y == y) = 2) :
    isAlive (applyMoves cells moves) ⟨-1, x, y⟩ = isAlive cells ⟨-1, x, y⟩ ∧
    applyMoves cells moves = moves.foldl flipMove cells ∧
    (∀ (cs : List Cell) (m : Move), isAlive cs ⟨-1, m.x, m.y⟩ = false →
      flipMove cs m = cs ++ [⟨m.playerid, m.x, m.y⟩]) ∧
    (∀ (cs : List Cell) (m : Move) (i : Nat),
      cs.findIdx? (fun cell => cell.equals ⟨m.playerid, m.x, m.y⟩) = some i →
      flipMove cs m = cs.eraseIdx i) := by
  refine ⟨?_, rfl, ?_, ?_⟩
  · rw [applyMoves_parity huniq, htwice]
    rfl
  · intro cs m hdead
    unfold flipMove
    cases hfi : cs.findIdx? (fun cell => cell.equals (⟨m.playerid, m.x, m.y⟩ : Cell)) with
    | none => rfl
    | some i =>
        have halive : isAlive cs ⟨-1, m.x, m.y⟩ = true := by
          show (cs.findIdx? (fun c => c.equals ⟨-1, m.x, m.y⟩)).isSome = true
          have h2 : (cs.findIdx?
              (fun cell => cell.equals (⟨m.playerid, m.x, m.y⟩ : Cell))).isSome = true := by
            rw [hfi]
            rfl
          exact h2
        rw [hdead] at halive
        cases halive
  · intro cs m i hfi
    unfold flipMove
    rw [hfi]

/-- C1: during `next`, a (deduplicated, dead) candidate coordinate of the
post-move live set gives rise to a cell in the committed next generation iff
exactly 3 of its 8 wrapped neighbour coordinates are live post-move. -/
theorem C1_birth_iff_three (g : Grid) (moves : List Move) (g' : Grid) (cx cy : Int)
    (hsize : 0 < g.size)
    (hbounds : inBounds g.size (applyMoves g.cells moves))
    (hnext : g.next moves = some g')
    (hdead : isAlive (applyMoves g.cells moves) ⟨-1, cx, cy⟩ = false)
    (hcand : ∃ L ∈ applyMoves g.cells moves, ∃ s ∈ neighbourShifts,
      cx = wrapCoord g.size (L.x + s.1) ∧ cy = wrapCoord g.size (L.y + s.2)) :
    (∃ b ∈ g'.cells, b.x = cx ∧ b.y = cy) ↔
      liveNeighbourCount g.size (applyMoves g.cells moves) cx cy = 3 := by
  obtain ⟨st, hb, hsz, hcells⟩ := next_some_elim hnext
  obtain ⟨hI1, hI2, hI3⟩ := birthPass_inv hb
  constructor
  · rintro ⟨b, hbmem, hbx, hby⟩
    rw [hcells] at hbmem
    rcases List.mem_append.mp hbmem with hnb | hsa
    · obtain ⟨_, q2, _, _, _⟩ := hI1 b hnb
      rw [← hbx, ← hby]
      have := bornScan_fst g.size (applyMoves g.cells moves) ⟨-1, b.x, b.y⟩
      rw [this] at q2
      exact q2
    · have hmem := (List.mem_filter.mp hsa).1
      have halive := mem_isAlive hmem (-1)
      rw [hbx, hby, hdead] at halive
      cases halive
  · intro hcount
    obtain ⟨L, hL, s, hs, hcx, hcy⟩ := hcand
    have hnb : neighbourCellOf g.size L s = ⟨-1, cx, cy⟩ := by
      unfold neighbourCellOf
      rw [← hcx, ← hcy]
    have hdead2 : isAlive (applyMoves g.cells moves) (neighbourCellOf g.size L s) = false := by
      rw [hnb]
      exact hdead
    have hchecked := birthPass_checked hb hL hs hdead2
    rw [hnb] at hchecked
    have h3 : (bornScan g.size (applyMoves g.cells moves) ⟨-1, cx, cy⟩).1 = 3 := by
      rw [bornScan_fst]
      exact hcount
    obtain ⟨b, hbmem, hbx, hby⟩ := hI2 (cx, cy) hchecked h3
    refine ⟨b, ?_, hbx, hby⟩
    rw [hcells]
    exact List.mem_append_left _ hbmem

/-- C2: a cell that is live after move application belongs to the committed
next generation iff its live-neighbour count over the 8 wrapped neighbour
coordinates (against the post-move live set) is 2 or 3. -/
theorem C2_survival_iff (g : Grid) (moves : List Move) (g' : Grid) (c : Cell)
    (huniq : coordUnique (applyMoves g.cells moves))
    (hnext : g.next moves = some g')
    (hc : c ∈ applyMoves g.cells moves) :
    c ∈ g'.cells ↔
      (liveNeighbourCount g.size (applyMoves g.cells moves) c.x c.y = 2 ∨
        liveNeighbourCount g.size (applyMoves g.cells moves) c.x c.y = 3) := by
  obtain ⟨st, hb, hsz, hcells⟩ := next_some_elim hnext
  obtain ⟨hI1, _, _⟩ := birthPass_inv hb
  have hlen := getAliveNeighboursOf_length g.size huniq c
  constructor
  · intro hmem
    rw [hcells] at hmem
    rcases List.mem_append.mp hmem with hnb | hsa
    · obtain ⟨q1, _, _, _, _⟩ := hI1 c hnb
      have halive := mem_isAlive hc (-1)
      rw [q1] at halive
      cases halive
    · have hh := (List.mem_filter.mp hsa).2
      unfold isHealthy at hh
      rw [Bool.or_eq_true, beq_iff_eq, beq_iff_eq, hlen] at hh
      exact hh
  · intro hcount
    rw [hcells]
    apply List.mem_append_right
    apply List.mem_filter.mpr
    refine ⟨hc, ?_⟩
    unfold isHealthy
    rw [Bool.or_eq_true, beq_iff_eq, beq_iff_eq, hlen]
    exact hcount

/-- C5: a cell born during `next` is owned by the player whose tally among
the recorded live neighbours (sentinel `-1` excluded) strictly exceeds every
other occurring player's tally. -/
theorem C5_ownership_vote (g : Grid) (moves : List Move) (g' : Grid) (b : Cell) (M : Int)
    (hnext : g.next moves = some g')
    (hb : b ∈ g'.cells)
    (hdead : isAlive (applyMoves g.cells moves) ⟨-1, b.x, b.y⟩ = false)
    (hM : M ≠ -1)
    (hMmem : ∃ c ∈ (bornScan g.size (applyMoves g.cells moves) ⟨-1, b.x, b.y⟩).2,
      c.owner = M)
    (hmax : ∀ o, o ≠ -1 → o ≠ M →
      (∃ c ∈ (bornScan g.size (applyMoves g.cells moves) ⟨-1, b.x, b.y⟩).2, c.owner = o) →
      voteTally (bornScan g.size (applyMoves g.cells moves) ⟨-1, b.x, b.y⟩).2 o <
        voteTally (bornScan g.size (applyMoves g.cells moves) ⟨-1, b.x, b.y⟩).2 M) :
    b.owner = M := by
  obtain ⟨st, hbp, hsz, hcells⟩ := next_some_elim hnext
  obtain ⟨hI1, _, _⟩ := birthPass_inv hbp
  rw [hcells] at hb
  rcases List.mem_append.mp hb with hnb | hsa
  · obtain ⟨_, _, q3, _, _⟩ := hI1 b hnb
    have hm := most_unique_max hM hMmem hmax
    rw [hm] at q3
    exact (Option.some.inj q3).symm
  · have hmem := (List.mem_filter.mp hsa).1
    have halive := mem_isAlive hmem (-1)
    rw [hdead] at halive
    cases halive

/-- C6 counterexample: a grid whose live cells are all unowned (`-1`, an
input the claim explicitly admits) makes `next` fail — `most` reduces an
empty key array, the modelled `TypeError`. -/
theorem C6_counterexample :
    ((Grid.ofSize 5).mountSnapshot [⟨1, 2, -1⟩, ⟨2, 2, -1⟩, ⟨3, 2, -1⟩]).next [] = none := by
  decide

/-- C6 amended: `next` completes whenever every live cell's owner and every
move's player id differ from the unowned sentinel `-1` (so every birth vote
has a voter). -/
theorem C6_next_total (g : Grid) (moves : List Move)
    (hcells : ∀ c ∈ g.cells, c.owner ≠ -1)
    (hmoves : ∀ m ∈ moves, m.playerid ≠ -1) :
    ∃ g', g.next moves = some g' := by
  have howners : ∀ c ∈ applyMoves g.cells moves, c.owner ≠ -1 := by
    intro c hc
    rcases mem_applyMoves hc with h | ⟨m, hm, rfl⟩
    · exact hcells c h
    · exact hmoves m hm
  have hbp : (birthPass g.size (applyMoves g.cells moves)).isSome = true := by
    apply foldlM_option_isSome
    intro st c _
    apply foldlM_option_isSome
    intro st2 s _
    unfold candidateStep
    by_cases h1 : isAlive (applyMoves g.cells moves) (neighbourCellOf g.size c s) = true
    · rw [if_pos h1]
      rfl
    · rw [if_neg h1]
      by_cases h2 : ((neighbourCellOf g.size c s).x, (neighbourCellOf g.size c s).y) ∈ st2.1
      · rw [if_pos h2]
        rfl
      · rw [if_neg h2]
        by_cases h3 : (bornScan g.size (applyMoves g.cells moves)
            (neighbourCellOf g.size c s)).1 = 3
        · rw [if_pos h3]
          rw [Option.isSome_map']
          unfold setOwner
          rw [Option.isSome_map']
          apply most_isSome
          have hsnd := bornScan_snd g.size (applyMoves g.cells moves)
            (neighbourCellOf g.size c s)
          have hlen : (bornScan g.size (applyMoves g.cells moves)
              (neighbourCellOf g.size c s)).2.length = 3 := by
            rw [hsnd.2, h3]
          have hne : (bornScan g.size (applyMoves g.cells moves)
              (neighbourCellOf g.size c s)).2 ≠ [] := by
            intro hnil
            rw [hnil] at hlen
            cases hlen
          obtain ⟨t0, ht0⟩ := List.exists_mem_of_ne_nil _ hne
          exact ⟨t0, ht0, howners t0 (hsnd.1 t0 ht0)⟩
        · rw [if_neg h3]
          rfl
  cases hb : birthPass g.size (applyMoves g.cells moves) with
  | none =>
      rw [hb] at hbp
      cases hbp
  | some st =>
      refine ⟨Grid.mk g.size (st.2 ++ (applyMoves g.cells moves).filter (isHealthy g.size (applyMoves g.cells moves))), ?_⟩
      unfold Grid.next
      rw [hb]

/-- C7: `next` preserves the at-most-one-live-cell-per-coordinate invariant —
newborns sit at pairwise-distinct dead coordinates, disjoint from the
survivors'. -/
theorem C7_coordUnique_preserved (g : Grid) (moves : List Move) (g' : Grid)
    (huniq : coordUnique g.cells) (hnext : g.next moves = some g') :
    coordUnique g'.cells := by
  obtain ⟨st, hb, hsz, hcells⟩ := next_some_elim hnext
  obtain ⟨hI1, _, hI3⟩ := birthPass_inv hb
  have huniq2 : coordUnique (applyMoves g.cells moves) := applyMoves_coordUnique huniq
  rw [hcells]
  unfold coordUnique
  rw [List.pairwise_append]
  refine ⟨hI3, List.Pairwise.filter _ huniq2, ?_⟩
  intro b hbn c hcs
  obtain ⟨q1, _, _, _, _⟩ := hI1 b hbn
  have hcmem := (List.mem_filter.mp hcs).1
  rw [equals_false_iff]
  intro hcon
  have halive := mem_isAlive hcmem (-1)
  rw [← hcon.1, ← hcon.2] at q1
  rw [halive] at q1
  cases q1

/-- C8: with size > 0, in-bounds live cells and in-bounds moves, every live
cell after `next` is still in bounds — wrap-around arithmetic never produces
an out-of-bounds newborn. -/
theorem C8_inBounds_preserved (g : Grid) (moves : List Move) (g' : Grid)
    (hsize : 0 < g.size)
    (hcells : inBounds g.size g.cells)
    (hmoves : ∀ m ∈ moves, 0 ≤ m.x ∧ m.x < g.size ∧ 0 ≤ m.y ∧ m.y < g.size)
    (hnext : g.next moves = some g') :
    inBounds g.size g'.cells := by
  obtain ⟨st, hb, hsz, hcellseq⟩ := next_some_elim hnext
  obtain ⟨hI1, _, _⟩ := birthPass_inv hb
  have hstar : inBounds g.size (applyMoves g.cells moves) := by
    intro c hc
    rcases mem_applyMoves hc with h | ⟨m, hm, rfl⟩
    · exact hcells c h
    · exact hmoves m hm
  intro c hc
  rw [hcellseq] at hc
  rcases List.mem_append.mp hc with hnb | hsa
  · obtain ⟨_, _, _, _, L, hL, s, hs, hx, hy⟩ := hI1 c hnb
    obtain ⟨hLx0, hLx, hLy0, hLy⟩ := hstar L hL
    have hsb : -1 ≤ s.1 ∧ s.1 ≤ 1 ∧ -1 ≤ s.2 ∧ s.2 ≤ 1 := by
      have hall : ∀ s ∈ neighbourShifts, -1 ≤ s.1 ∧ s.1 ≤ 1 ∧ -1 ≤ s.2 ∧ s.2 ≤ 1 := by
        decide
      exact hall s hs
    have h1 := wrapCoord_bounds hsize hLx0 hLx hsb.1 hsb.2.1
    have h2 := wrapCoord_bounds hsize hLy0 hLy hsb.2.2.1 hsb.2.2.2
    rw [hx, hy]
    exact ⟨h1.1, h1.2, h2.1, h2.2⟩
  · exact hstar c (List.mem_filter.mp hsa).1

/-- C10: frame property — every healthy post-move cell is carried into the
next generation unchanged (same owner, same coordinates), and every cell of
the next generation is either such an untouched survivor or a newborn at a
previously dead coordinate. -/
theorem C10_survivors_frame (g : Grid) (moves : List Move) (g' : Grid)
    (hnext : g.next moves = some g') :
    (∀ c ∈ applyMoves g.cells moves,
      isHealthy g.size (applyMoves g.cells moves) c = true → c ∈ g'.cells) ∧
    (∀ c ∈ g'.cells, c ∈ applyMoves g.cells moves ∨
      isAlive (applyMoves g.cells moves) ⟨-1, c.x, c.y⟩ = false) := by
  obtain ⟨st, hb, hsz, hcells⟩ := next_some_elim hnext
  obtain ⟨hI1, _, _⟩ := birthPass_inv hb
  constructor
  · intro c hc hh
    rw [hcells]
    exact List.mem_append_right _ (List.mem_filter.mpr ⟨hc, hh⟩)
  · intro c hc
    rw [hcells] at hc
    rcases List.mem_append.mp hc with hnb | hsa
    · exact Or.inr (hI1 c hnb).1
    · exact Or.inl (List.mem_filter.mp hsa).1

/-- C9: the reference blinker trace on a size-50 grid — after the first step
(with unrelated moves) 3 cells are live; after the second step 3 cells are
live including `(4, 2)` and `(2, 4)`. -/
theorem C9_blinker_trace :
    ∃ g1 g2 : Grid,
      ((Grid.ofSize 50).mountSnapshot [⟨2, 3, 1⟩, ⟨3, 3, 1⟩, ⟨4, 3, 1⟩]).next
          [⟨10, 10, 1⟩, ⟨15, 15, 1⟩, ⟨25, 25, 1⟩] = some g1 ∧
      g1.cells.length = 3 ∧
      g1.next [⟨5, 2, 1⟩, ⟨1, 4, 1⟩, ⟨25, 25, 1⟩] = some g2 ∧
      g2.cells.length = 3 ∧
      (∃ b ∈ g2.cells, b.x = 4 ∧ b.y = 2) ∧
      (∃ b ∈ g2.cells, b.x = 2 ∧ b.y = 4) := by
  refine ⟨⟨50, [⟨1, 3, 2⟩, ⟨1, 3, 4⟩, ⟨1, 3, 3⟩]⟩,
    ⟨50, [⟨1, 4, 2⟩, ⟨1, 2, 4⟩, ⟨1, 3, 3⟩]⟩, ?_, ?_, ?_, ?_, ?_, ?_⟩
  · decide
  · decide
  · decide
  · decide
  · decide
  · decide

/-! ### Witnesses: every hypothesis of every claim theorem is satisfiable,
exercised on a concrete 3-cell row on a size-5 grid (and variants) -/

theorem C1_birth_iff_three_witness :
    (∃ b ∈ ({ size := 5, cells := [⟨1, 2, 1⟩, ⟨1, 2, 3⟩, ⟨1, 2, 2⟩] } : Grid).cells,
      b.x = 2 ∧ b.y = 1) ↔
      liveNeighbourCount 5 (applyMoves [⟨1, 1, 2⟩, ⟨1, 2, 2⟩, ⟨1, 3, 2⟩] []) 2 1 = 3 :=
  C1_birth_iff_three ⟨5, [⟨1, 1, 2⟩, ⟨1, 2, 2⟩, ⟨1, 3, 2⟩]⟩ []
    ⟨5, [⟨1, 2, 1⟩, ⟨1, 2, 3⟩, ⟨1, 2, 2⟩]⟩ 2 1
    (by decide) (by unfold inBounds; decide) (by decide) (by decide) (by decide)

theorem C2_survival_iff_witness :
    (⟨1, 2, 2⟩ : Cell) ∈ ({ size := 5, cells := [⟨1, 2, 1⟩, ⟨1, 2, 3⟩, ⟨1, 2, 2⟩] } : Grid).cells ↔
      (liveNeighbourCount 5 (applyMoves [⟨1, 1, 2⟩, ⟨1, 2, 2⟩, ⟨1, 3, 2⟩] []) 2 2 = 2 ∨
        liveNeighbourCount 5 (applyMoves [⟨1, 1, 2⟩, ⟨1, 2, 2⟩, ⟨1, 3, 2⟩] []) 2 2 = 3) :=
  C2_survival_iff ⟨5, [⟨1, 1, 2⟩, ⟨1, 2, 2⟩, ⟨1, 3, 2⟩]⟩ []
    ⟨5, [⟨1, 2, 1⟩, ⟨1, 2, 3⟩, ⟨1, 2, 2⟩]⟩ ⟨1, 2, 2⟩
    (by unfold coordUnique; decide) (by decide) (by decide)

theorem C3_toroidal_adjacency_witness :
    (∀ c : Cell, (bornScan 5 [⟨1, 1, 2⟩, ⟨1, 2, 2⟩, ⟨1, 3, 2⟩] c).1 =
      (neighbourShifts.map (shiftCoord 5 c.x c.y)).countP
        (fun p => isAlive [⟨1, 1, 2⟩, ⟨1, 2, 2⟩, ⟨1, 3, 2⟩] ⟨-1, p.1, p.2⟩)) ∧
    (∀ c : Cell, (getAliveNeighboursOf 5 [⟨1, 1, 2⟩, ⟨1, 2, 2⟩, ⟨1, 3, 2⟩] c).length =
      (neighbourShifts.map (shiftCoord 5 c.x c.y)).countP
        (fun p => isAlive [⟨1, 1, 2⟩, ⟨1, 2, 2⟩, ⟨1, 3, 2⟩] ⟨-1, p.1, p.2⟩)) ∧
    neighbourShifts = [(-1, -1), (-1, 0), (-1, 1), (0, -1), (0, 1), (1, -1), (1, 0), (1, 1)] ∧
    (∀ s : Int × Int, ∀ x : Int, shiftCoord 5 x 2 s =
      (wrapCoord 5 (x + s.1), wrapCoord 5 (2 + s.2))) ∧
    (5 - 1, 2) ∈ neighbourShifts.map (shiftCoord 5 0 2) ∧
    (0, 2) ∈ neighbourShifts.map (shiftCoord 5 (5 - 1) 2) :=
  C3_toroidal_adjacency 5 2 [⟨1, 1, 2⟩, ⟨1, 2, 2⟩, ⟨1, 3, 2⟩]
    (by decide) (by decide) (by decide) (by unfold coordUnique; decide)

theorem C4_toggle_moves_witness :
    isAlive (applyMoves [⟨1, 0, 0⟩] [⟨0, 0, 2⟩, ⟨0, 0, 3⟩]) ⟨-1, 0, 0⟩ =
      isAlive [⟨1, 0, 0⟩] ⟨-1, 0, 0⟩ ∧
    applyMoves [⟨1, 0, 0⟩] [⟨0, 0, 2⟩, ⟨0, 0, 3⟩] =
      [(⟨0, 0, 2⟩ : Move), ⟨0, 0, 3⟩].foldl flipMove [⟨1, 0, 0⟩] ∧
    (∀ (cs : List Cell) (m : Move), isAlive cs ⟨-1, m.x, m.y⟩ = false →
      flipMove cs m = cs ++ [⟨m.playerid, m.x, m.y⟩]) ∧
    (∀ (cs : List Cell) (m : Move) (i : Nat),
      cs.findIdx? (fun cell => cell.equals ⟨m.playerid, m.x, m.y⟩) = some i →
      flipMove cs m = cs.eraseIdx i) :=
  C4_toggle_moves [⟨1, 0, 0⟩] [⟨0, 0, 2⟩, ⟨0, 0, 3⟩] 0 0 (by unfold coordUnique; decide) (by decide)

theorem C5_ownership_vote_witness : (⟨1, 2, 1⟩ : Cell).owner = 1 :=
  C5_ownership_vote ⟨9, [⟨1, 1, 1⟩, ⟨1, 3, 1⟩, ⟨2, 2, 2⟩]⟩ []
    ⟨9, [⟨1, 2, 1⟩, ⟨2, 2, 2⟩]⟩ ⟨1, 2, 1⟩ 1
    (by decide) (by decide) (by decide) (by decide) (by decide)
    (by
      intro o ho h1 hocc
      obtain ⟨c, hc, hco⟩ := hocc
      have hc2 : c ∈ [(⟨1, 1, 1⟩ : Cell), ⟨2, 2, 2⟩, ⟨1, 3, 1⟩] := hc
      have hc3 : c = ⟨1, 1, 1⟩ ∨ c = ⟨2, 2, 2⟩ ∨ c = ⟨1, 3, 1⟩ := by
        simpa using hc2
      rcases hc3 with rfl | rfl | rfl
      · exact absurd hco.symm h1
      · have ho2 : o = 2 := hco.symm
        subst ho2
        decide
      · exact absurd hco.symm h1)

theorem C6_next_total_witness :
    ∃ g', Grid.next ⟨5, [⟨1, 1, 2⟩]⟩ [] = some g' :=
  C6_next_total ⟨5, [⟨1, 1, 2⟩]⟩ [] (by decide) (by decide)

theorem C7_coordUnique_preserved_witness :
    coordUnique ({ size := 5, cells := [⟨1, 2, 1⟩, ⟨1, 2, 3⟩, ⟨1, 2, 2⟩] } : Grid).cells :=
  C7_coordUnique_preserved ⟨5, [⟨1, 1, 2⟩, ⟨1, 2, 2⟩, ⟨1, 3, 2⟩]⟩ []
    ⟨5, [⟨1, 2, 1⟩, ⟨1, 2, 3⟩, ⟨1, 2, 2⟩]⟩ (by unfold coordUnique; decide) (by decide)

theorem C8_inBounds_preserved_witness :
    inBounds 5 ({ size := 5, cells := [⟨1, 2, 1⟩, ⟨1, 2, 3⟩, ⟨1, 2, 2⟩] } : Grid).cells :=
  C8_inBounds_preserved ⟨5, [⟨1, 1, 2⟩, ⟨1, 2, 2⟩, ⟨1, 3, 2⟩]⟩ []
    ⟨5, [⟨1, 2, 1⟩, ⟨1, 2, 3⟩, ⟨1, 2, 2⟩]⟩
    (by decide) (by unfold inBounds; decide) (by decide) (by decide)

theorem C10_survivors_frame_witness :
    (∀ c ∈ applyMoves [⟨1, 1, 2⟩, ⟨1, 2, 2⟩, ⟨1, 3, 2⟩] [],
      isHealthy 5 (applyMoves [⟨1, 1, 2⟩, ⟨1, 2, 2⟩, ⟨1, 3, 2⟩] []) c = true →
      c ∈ ({ size := 5, cells := [⟨1, 2, 1⟩, ⟨1, 2, 3⟩, ⟨1, 2, 2⟩] } : Grid).cells) ∧
    (∀ c ∈ ({ size := 5, cells := [⟨1, 2, 1⟩, ⟨1, 2, 3⟩, ⟨1, 2, 2⟩] } : Grid).cells,
      c ∈ applyMoves [⟨1, 1, 2⟩, ⟨1, 2, 2⟩, ⟨1, 3, 2⟩] [] ∨
      isAlive (applyMoves [⟨1, 1, 2⟩, ⟨1, 2, 2⟩, ⟨1, 3, 2⟩] []) ⟨-1, c.x, c.y⟩ = false) :=
  C10_survivors_frame ⟨5, [⟨1, 1, 2⟩, ⟨1, 2, 2⟩, ⟨1, 3, 2⟩]⟩ []
    ⟨5, [⟨1, 2, 1⟩, ⟨1, 2, 3⟩, ⟨1, 2, 2⟩]⟩ (by decide)

end Salz
